import Mathlib

/-!
Verification of the JobPilotAI job-search automation system.

Shallow embedding of the Python sources in `src/` (security.py, qa_bank.py,
rate_limiter.py, scoring_engine.py, dedup_engine.py, apply_engine.py,
material_manager.py, scheduler.py).  Python strings are Lean `String`s
(operated on character lists, matching Python's per-character semantics for
the ASCII data used throughout), Python floats are modelled as exact
rationals (`ℚ`, with Python's `round` half-to-even rounding transcribed
explicitly), Python ints are `ℤ`/`ℕ`, dicts with string keys are association
lists, and `None`-able values are `Option`s.  File I/O, wall-clock time,
sleeping and random jitter are not modelled; where a function reads the
current time or date, that value is passed in as an explicit argument.
-/

namespace JobPilot

/-! ## Shared helpers -/

/-- Lowercase a string character by character, as Python's `str.lower` does
for the ASCII strings appearing in this code base. -/
def lowerChars (s : String) : List Char :=
  s.toList.map Char.toLower

/-- Lowercase a string, returning a string. -/
def lowerStr (s : String) : String :=
  ⟨lowerChars s⟩

/-- `infixOf n h` is Python's `n in h` on character lists: `n` occurs
contiguously inside `h`. -/
def infixOf (n : List Char) : List Char → Bool
  | [] => n.isEmpty
  | c :: t => List.isPrefixOf n (c :: t) || infixOf n t

/-- Python's `needle in hay` for strings. -/
def pyIn (needle hay : String) : Bool :=
  infixOf needle.toList hay.toList

/-- Lookup in an association list modelling a Python dict (first binding
wins, as for a dict where keys are unique). -/
def dictGet? {α : Type} (k : String) : List (String × α) → Option α
  | [] => none
  | (k', v) :: t => if k' = k then some v else dictGet? k t

/-- Update/insert in an association list modelling `d[k] = v`. -/
def dictSet {α : Type} (k : String) (v : α) : List (String × α) → List (String × α)
  | [] => [(k, v)]
  | (k', v') :: t => if k' = k then (k, v) :: t else (k', v') :: dictSet k v t

theorem dictGet?_dictSet_self {α : Type} (k : String) (v : α) (l : List (String × α)) :
    dictGet? k (dictSet k v l) = some v := by
  induction l with
  | nil => simp [dictGet?, dictSet]
  | cons h t ih =>
    obtain ⟨k', v'⟩ := h
    by_cases hk : k' = k
    · simp [dictGet?, dictSet, hk]
    · simp [dictGet?, dictSet, hk, ih]

theorem dictGet?_dictSet_ne {α : Type} {k k' : String} (v : α) (l : List (String × α))
    (h : k' ≠ k) : dictGet? k' (dictSet k v l) = dictGet? k' l := by
  induction l with
  | nil => simp [dictGet?, dictSet, Ne.symm h]
  | cons hd t ih =>
    obtain ⟨k'', v''⟩ := hd
    by_cases hk : k'' = k
    · subst hk
      simp [dictGet?, dictSet, Ne.symm h]
    · simp only [dictSet, if_neg hk]
      by_cases hk2 : k'' = k'
      · simp [dictGet?, hk2]
      · simp [dictGet?, hk2, ih]

/-- Worker for `wordsOf`: split on whitespace runs, accumulating the
current word in reverse. -/
def wordsOfL : List Char → List Char → List String
  | [], acc => if acc.isEmpty then [] else [⟨acc.reverse⟩]
  | c :: t, acc =>
    if c.isWhitespace then
      if acc.isEmpty then wordsOfL t [] else ⟨acc.reverse⟩ :: wordsOfL t []
    else wordsOfL t (c :: acc)

/-- Python's `str.split()` with no argument: split on whitespace runs,
dropping empty pieces. -/
def wordsOf (s : String) : List String := wordsOfL s.toList []

/-- Worker for `dedupFirst`. -/
def dedupAux : List String → List String → List String
  | [], _ => []
  | x :: t, seen => if seen.contains x then dedupAux t seen else x :: dedupAux t (x :: seen)

/-- The distinct elements of a list, first occurrence kept.  Models
Python's `set(...)` where only membership and cardinality matter, and
`list(set(...))` where the (hash-dependent, unspecified) iteration order is
modelled as first-occurrence order. -/
def dedupFirst (l : List String) : List String := dedupAux l []

/-- Python's `round` on a rational: round half to even (banker's rounding). -/
def roundHalfEven (q : ℚ) : ℤ :=
  let f := ⌊q⌋
  let r := q - f
  if r < 1 / 2 then f
  else if 1 / 2 < r then f + 1
  else if f % 2 = 0 then f else f + 1

/-- Python's `round(x, 3)`: round to three decimal places, half to even. -/
def round3 (q : ℚ) : ℚ :=
  (roundHalfEven (q * 1000) : ℚ) / 1000

/-! ## security.py -/

namespace Security

/-- `security.mask_credential(value, visible_chars)` (src/security.py lines
194-210): `"[EMPTY]"` for a falsy (empty) value, `"***"` when
`len(value) <= visible_chars`, else the first `visible_chars` characters of
the value followed by `"***"`. -/
def mask_credential (value : String) (visible_chars : Nat) : String :=
  if value = "" then "[EMPTY]"
  else if value.length ≤ visible_chars then "***"
  else value.take visible_chars ++ "***"

/-- C3 counterexample: the claim says a value of length exactly
`visible_chars` is returned as its first `visible_chars` characters followed
by `"***"`, but `mask_credential("abcd", 4)` is `"***"` (the code branches
on `len(value) <= visible_chars`, not strict `<`). -/
theorem mask_credential_len_eq_visible_counterexample :
    mask_credential "abcd" 4 = "***" ∧ "***" ≠ "abcd" ++ "***" := by
  constructor
  · rfl
  · decide

/-- C3 amended: for every non-empty value, `mask_credential` returns `"***"`
exactly when the value's length is less than **or equal to** `visible_chars`,
and the first `visible_chars` characters followed by `"***"` when the value
is strictly longer; the empty string maps to `"[EMPTY]"`. -/
theorem mask_credential_spec (value : String) (visible_chars : Nat)
    (h : value ≠ "") :
    (value.length ≤ visible_chars → mask_credential value visible_chars = "***")
    ∧ (visible_chars < value.length →
        mask_credential value visible_chars = value.take visible_chars ++ "***")
    ∧ mask_credential "" visible_chars = "[EMPTY]" := by
  refine ⟨fun hle => ?_, fun hlt => ?_, rfl⟩
  · simp [mask_credential, h, hle]
  · simp [mask_credential, h, Nat.not_le_of_lt hlt]

/-- Closed witness for `mask_credential_spec` at concrete inputs. -/
theorem mask_credential_spec_witness :
    mask_credential "abc" 4 = "***" ∧ mask_credential "secret99" 4 = "secr***" := by
  have h := mask_credential_spec "abc" 4 (by decide)
  have h2 := mask_credential_spec "secret99" 4 (by decide)
  exact ⟨h.1 (by decide), by simpa using h2.2.1 (by decide)⟩

end Security

/-! ## material_manager.py — variant scoring -/

namespace Materials

/-- Counter fields of a `ResumeVariant`/`CoverLetterVariant` used by the
scoring formula (src/material_manager.py). -/
structure Variant where
  applications_used : Nat
  callbacks : Nat
  interviews : Nat
  offers : Nat
  rejections : Nat
  ghosted : Nat
  deriving DecidableEq, Repr

/-- `OUTCOME_WEIGHTS` dict (src/material_manager.py lines 169-175). -/
def OUTCOME_WEIGHTS (k : String) : ℤ :=
  if k = "callback" then 1
  else if k = "interview" then 3
  else if k = "offer" then 5
  else if k = "rejected" then -1
  else if k = "ghosted" then -2
  else 0

/-- `MIN_APPS_FOR_FULL_CONFIDENCE` (src/material_manager.py line 177). -/
def MIN_APPS_FOR_FULL_CONFIDENCE : ℚ := 3

/-- `calculate_variant_score(variant)` (src/material_manager.py lines
180-202): weighted funnel signal divided by `max(applications_used, 1)`,
discounted by `min(1.0, applications_used / 3)` and rounded to 3 decimals. -/
def calculate_variant_score (v : Variant) : ℚ :=
  let apps : ℚ := max (v.applications_used : ℚ) 1
  let raw : ℚ :=
    ((v.callbacks : ℚ) * OUTCOME_WEIGHTS "callback"
      + (v.interviews : ℚ) * OUTCOME_WEIGHTS "interview"
      + (v.offers : ℚ) * OUTCOME_WEIGHTS "offer"
      + (v.rejections : ℚ) * OUTCOME_WEIGHTS "rejected"
      + (v.ghosted : ℚ) * OUTCOME_WEIGHTS "ghosted") / apps
  let confidence : ℚ := min 1 ((v.applications_used : ℚ) / MIN_APPS_FOR_FULL_CONFIDENCE)
  round3 (raw * confidence)

/-- C9: the variant score formula holds exactly — for every variant,
`raw = (callbacks + 3*interviews + 5*offers - rejections - 2*ghosted) /
max(applications_used, 1)`, `confidence = min(1, applications_used / 3)`,
`score = round3(raw * confidence)`; a variant with applications_used=5,
callbacks=1, interviews=1, rejections=1 scores 0.6, and a variant with
applications_used=1 and one interview scores 1.0. -/
theorem calculate_variant_score_formula :
    (∀ v : Variant,
      calculate_variant_score v =
        round3 ((((v.callbacks : ℚ) * 1 + (v.interviews : ℚ) * 3 + (v.offers : ℚ) * 5
            - (v.rejections : ℚ) * 1 - (v.ghosted : ℚ) * 2)
          / max (v.applications_used : ℚ) 1)
          * min 1 ((v.applications_used : ℚ) / 3)))
    ∧ calculate_variant_score ⟨5, 1, 1, 0, 1, 0⟩ = 6 / 10
    ∧ calculate_variant_score ⟨1, 0, 1, 0, 0, 0⟩ = 1 := by
  have w1 : OUTCOME_WEIGHTS "callback" = 1 := rfl
  have w2 : OUTCOME_WEIGHTS "interview" = 3 := rfl
  have w3 : OUTCOME_WEIGHTS "offer" = 5 := rfl
  have w4 : OUTCOME_WEIGHTS "rejected" = -1 := rfl
  have w5 : OUTCOME_WEIGHTS "ghosted" = -2 := rfl
  refine ⟨fun v => ?_, ?_, ?_⟩
  · simp only [calculate_variant_score, w1, w2, w3, w4, w5,
      MIN_APPS_FOR_FULL_CONFIDENCE]
    congr 1
    push_cast
    ring
  · norm_num [calculate_variant_score, w1, w2, w3, w4, w5,
      MIN_APPS_FOR_FULL_CONFIDENCE, round3, roundHalfEven]
  · norm_num [calculate_variant_score, w1, w2, w3, w4, w5,
      MIN_APPS_FOR_FULL_CONFIDENCE, round3, roundHalfEven]

end Materials

/-! ## rate_limiter.py -/

namespace Rates

/-- One per-board rate configuration entry (src/rate_limiter.py lines 44-67). -/
structure RateCfg where
  min_delay : ℚ
  max_delay : ℚ
  daily_cap : Nat
  backoff_factor : ℚ
  deriving DecidableEq, Repr

/-- `DEFAULT_BOARD_RATES` (src/rate_limiter.py lines 44-67), carried over
verbatim. -/
def DEFAULT_BOARD_RATES : List (String × RateCfg) := [
  ("indeed", ⟨3, 7, 200, 2⟩),
  ("linkedin", ⟨5, 10, 150, 5/2⟩),
  ("glassdoor", ⟨4, 8, 150, 2⟩),
  ("ziprecruiter", ⟨3, 6, 200, 2⟩),
  ("monster", ⟨2, 5, 250, 3/2⟩),
  ("careerbuilder", ⟨2, 5, 250, 3/2⟩),
  ("dice", ⟨2, 5, 200, 3/2⟩),
  ("builtin", ⟨2, 4, 200, 3/2⟩),
  ("wellfound", ⟨3, 6, 150, 2⟩),
  ("biospace", ⟨2, 4, 200, 3/2⟩),
  ("usajobs", ⟨1, 3, 300, 3/2⟩),
  ("clearancejobs", ⟨2, 5, 200, 3/2⟩),
  ("flexjobs", ⟨3, 6, 150, 2⟩),
  ("weworkremotely", ⟨1, 3, 200, 3/2⟩),
  ("remoteok", ⟨1, 3, 200, 3/2⟩),
  ("ycombinator", ⟨2, 5, 200, 2⟩),
  ("simplyhired", ⟨2, 5, 200, 3/2⟩),
  ("adzuna", ⟨1, 3, 300, 3/2⟩),
  ("themuse", ⟨1, 3, 300, 3/2⟩),
  ("jooble", ⟨2, 5, 200, 3/2⟩),
  ("career_page", ⟨2, 5, 500, 3/2⟩),
  ("default", ⟨2, 5, 200, 2⟩)]

/-- `RateLimiter` mutable state: the merged rates dict and the per-board
daily counts, the local date of those counts (abstracted to a `Nat` day
number, since only equality of dates matters), and per-board backoff
levels.  The `_last_request` timestamps, sleeping and random jitter are
wall-clock side effects with no influence on any return value or counter
and are not modelled. -/
structure RLState where
  rates : List (String × RateCfg)
  daily_counts : List (String × Nat)
  daily_date : Nat
  backoff_level : List (String × ℤ)
  deriving DecidableEq, Repr

/-- `RateLimiter.__init__(custom_rates)`: default table updated with the
custom entries (an overriding dict update; modelled by putting the custom
entries first for lookup), empty defaultdicts, today's date. -/
def initLimiter (custom_rates : List (String × RateCfg)) (today : Nat) : RLState :=
  { rates := custom_rates ++ DEFAULT_BOARD_RATES
    daily_counts := []
    daily_date := today
    backoff_level := [] }

/-- `RateLimiter._get_rate(board)`: the board's entry, falling back to the
`"default"` entry (src/rate_limiter.py lines 83-85). -/
def getRate (st : RLState) (board : String) : RateCfg :=
  match dictGet? board st.rates with
  | some r => r
  | none => (dictGet? "default" st.rates).getD ⟨2, 5, 200, 2⟩

/-- defaultdict(int) read of today's count for a board. -/
def getCount (st : RLState) (board : String) : Nat :=
  (dictGet? board st.daily_counts).getD 0

/-- defaultdict(int) read of the backoff level for a board. -/
def getBackoff (st : RLState) (board : String) : ℤ :=
  (dictGet? board st.backoff_level).getD 0

/-- `RateLimiter._reset_daily_if_needed()` (src/rate_limiter.py lines
87-93): when the local date has advanced, clear the daily counts and all
backoff levels. -/
def resetDailyIfNeeded (today : Nat) (st : RLState) : RLState :=
  if today ≠ st.daily_date then
    { st with daily_counts := [], backoff_level := [], daily_date := today }
  else st

/-- `RateLimiter.can_request(board)` (src/rate_limiter.py lines 95-100):
resets the daily state if needed, then checks today's count against the
board's daily cap.  Returns the result together with the (possibly reset)
state. -/
def can_request (today : Nat) (board : String) (st : RLState) : Bool × RLState :=
  let st := resetDailyIfNeeded today st
  (decide (getCount st board < (getRate st board).daily_cap), st)

/-- `RateLimiter.wait(board)` (src/rate_limiter.py lines 102-132): resets
the daily state if needed; returns false immediately when the cap is
reached, else reserves a slot (incrementing today's count) and returns
true.  The jitter/backoff delay computation and the sleep affect only
wall-clock time, not the returned value or the counters. -/
def wait (today : Nat) (board : String) (st : RLState) : Bool × RLState :=
  let st := resetDailyIfNeeded today st
  let rate := getRate st board
  if rate.daily_cap ≤ getCount st board then (false, st)
  else (true, { st with daily_counts := dictSet board (getCount st board + 1) st.daily_counts })

/-- `RateLimiter.report_success(board)` (src/rate_limiter.py lines
134-138): decrement the backoff level when it is positive. -/
def report_success (board : String) (st : RLState) : RLState :=
  if 0 < getBackoff st board then
    { st with backoff_level := dictSet board (getBackoff st board - 1) st.backoff_level }
  else st

/-- `RateLimiter.report_throttled(board)` (src/rate_limiter.py lines
140-143): increment the backoff level, ceiling 5. -/
def report_throttled (board : String) (st : RLState) : RLState :=
  { st with backoff_level := dictSet board (min (getBackoff st board + 1) 5) st.backoff_level }

/-- `RateLimiter.report_blocked(board)` (src/rate_limiter.py lines
145-148): jump the backoff level directly to 5. -/
def report_blocked (board : String) (st : RLState) : RLState :=
  { st with backoff_level := dictSet board 5 st.backoff_level }

/-- A backoff-report event aimed at one board. -/
inductive Report where
  | success (board : String)
  | throttled (board : String)
  | blocked (board : String)

/-- Apply one report event to the limiter state. -/
def applyReport (st : RLState) : Report → RLState
  | .success b => report_success b st
  | .throttled b => report_throttled b st
  | .blocked b => report_blocked b st

/-- Apply a sequence of report events. -/
def applyReports (evs : List Report) (st : RLState) : RLState :=
  evs.foldl applyReport st

theorem getBackoff_report_success (st : RLState) (b b' : String) :
    getBackoff (report_success b st) b' =
      if b' = b ∧ 0 < getBackoff st b then getBackoff st b - 1
      else getBackoff st b' := by
  by_cases hpos : 0 < getBackoff st b
  · rw [report_success, if_pos hpos]
    by_cases hb : b' = b
    · subst hb
      show (dictGet? b' (dictSet b' (getBackoff st b' - 1) st.backoff_level)).getD 0 = _
      rw [dictGet?_dictSet_self, if_pos ⟨rfl, hpos⟩]
      rfl
    · show (dictGet? b' (dictSet b (getBackoff st b - 1) st.backoff_level)).getD 0 = _
      rw [dictGet?_dictSet_ne _ _ hb, if_neg (fun hc => hb hc.1)]
      rfl
  · rw [report_success, if_neg hpos, if_neg (fun hc => hpos hc.2)]

theorem getBackoff_report_throttled (st : RLState) (b b' : String) :
    getBackoff (report_throttled b st) b' =
      if b' = b then min (getBackoff st b + 1) 5 else getBackoff st b' := by
  by_cases hb : b' = b
  · subst hb
    show (dictGet? b' (dictSet b' (min (getBackoff st b' + 1) 5) st.backoff_level)).getD 0 = _
    rw [dictGet?_dictSet_self, if_pos rfl]
    rfl
  · show (dictGet? b' (dictSet b (min (getBackoff st b + 1) 5) st.backoff_level)).getD 0 = _
    rw [dictGet?_dictSet_ne _ _ hb, if_neg hb]
    rfl

theorem getBackoff_report_blocked (st : RLState) (b b' : String) :
    getBackoff (report_blocked b st) b' =
      if b' = b then 5 else getBackoff st b' := by
  by_cases hb : b' = b
  · subst hb
    show (dictGet? b' (dictSet b' 5 st.backoff_level)).getD 0 = _
    rw [dictGet?_dictSet_self, if_pos rfl]
    rfl
  · show (dictGet? b' (dictSet b 5 st.backoff_level)).getD 0 = _
    rw [dictGet?_dictSet_ne _ _ hb, if_neg hb]
    rfl

/-- Any single report keeps a backoff level that was in [0,5] inside [0,5]. -/
theorem getBackoff_applyReport_mem (st : RLState) (e : Report) (b : String)
    (h : 0 ≤ getBackoff st b ∧ getBackoff st b ≤ 5) :
    0 ≤ getBackoff (applyReport st e) b ∧ getBackoff (applyReport st e) b ≤ 5 := by
  cases e with
  | success b' =>
    rw [applyReport, getBackoff_report_success]
    by_cases hc : b = b' ∧ 0 < getBackoff st b'
    · rw [if_pos hc]
      rw [hc.1] at h
      omega
    · rw [if_neg hc]
      exact h
  | throttled b' =>
    rw [applyReport, getBackoff_report_throttled]
    by_cases hc : b = b'
    · rw [if_pos hc]
      rw [hc] at h
      omega
    · rw [if_neg hc]
      exact h
  | blocked b' =>
    rw [applyReport, getBackoff_report_blocked]
    by_cases hc : b = b'
    · rw [if_pos hc]
      omega
    · rw [if_neg hc]
      exact h

/-- The [0,5] bound is preserved by any sequence of reports. -/
theorem getBackoff_applyReports_mem (evs : List Report) (st : RLState) (b : String)
    (h : 0 ≤ getBackoff st b ∧ getBackoff st b ≤ 5) :
    0 ≤ getBackoff (applyReports evs st) b ∧ getBackoff (applyReports evs st) b ≤ 5 := by
  induction evs generalizing st with
  | nil => exact h
  | cons e t ih => exact ih (applyReport st e) (getBackoff_applyReport_mem st e b h)

/-- `n` consecutive throttle reports drive the level to `min (l + n) 5`. -/
theorem getBackoff_throttled_replicate (n : ℕ) (st : RLState) (b : String)
    (h : getBackoff st b ≤ 5) :
    getBackoff (applyReports (List.replicate n (.throttled b)) st) b =
      min (getBackoff st b + n) 5 := by
  induction n generalizing st with
  | zero =>
    simp only [List.replicate, applyReports, List.foldl_nil, Nat.cast_zero, add_zero]
    omega
  | succ k ih =>
    rw [List.replicate_succ]
    show getBackoff (applyReports (List.replicate k (.throttled b))
      (applyReport st (.throttled b))) b = _
    rw [ih]
    · rw [applyReport, getBackoff_report_throttled, if_pos rfl]
      push_cast
      omega
    · rw [applyReport, getBackoff_report_throttled, if_pos rfl]
      omega

/-- `n` consecutive success reports drive the level to `max (l - n) 0`. -/
theorem getBackoff_success_replicate (n : ℕ) (st : RLState) (b : String)
    (h : 0 ≤ getBackoff st b) :
    getBackoff (applyReports (List.replicate n (.success b)) st) b =
      max (getBackoff st b - n) 0 := by
  induction n generalizing st with
  | zero =>
    simp only [List.replicate, applyReports, List.foldl_nil, Nat.cast_zero, sub_zero]
    omega
  | succ k ih =>
    rw [List.replicate_succ]
    show getBackoff (applyReports (List.replicate k (.success b))
      (applyReport st (.success b))) b = _
    rw [ih]
    · rw [applyReport, getBackoff_report_success]
      by_cases hc : b = b ∧ 0 < getBackoff st b
      · rw [if_pos hc]
        push_cast
        omega
      · have hl : ¬ 0 < getBackoff st b := fun hp => hc ⟨rfl, hp⟩
        rw [if_neg hc]
        push_cast
        omega
    · rw [applyReport, getBackoff_report_success]
      by_cases hc : b = b ∧ 0 < getBackoff st b
      · rw [if_pos hc]
        omega
      · rw [if_neg hc]
        omega

/-- Limiter constructed with a custom source capped at 3 requests/day
(`RateLimiter(custom_rates={"jobsite": {..., "daily_cap": 3, ...}})`),
on local day 0. -/
def capTraceS0 : RLState := initLimiter [("jobsite", ⟨2, 5, 3, 2⟩)] 0

/-- State after the first `wait("jobsite")` on day 0. -/
def capTraceS1 : RLState := (wait 0 "jobsite" capTraceS0).2

/-- State after the second `wait("jobsite")` on day 0. -/
def capTraceS2 : RLState := (wait 0 "jobsite" capTraceS1).2

/-- State after the third `wait("jobsite")` on day 0. -/
def capTraceS3 : RLState := (wait 0 "jobsite" capTraceS2).2

/-- State after the fourth (refused) `wait("jobsite")` on day 0. -/
def capTraceS4 : RLState := (wait 0 "jobsite" capTraceS3).2

/-- State after a further `report_throttled("jobsite")`, so that the later
date rollover demonstrably resets a nonzero backoff level. -/
def capTraceS5 : RLState := report_throttled "jobsite" capTraceS4

/-- C5: with daily_cap=3, four same-day `wait` calls return
true, true, true, false; `can_request` is false after the third; once the
local date advances, `can_request` is true again and the daily reset has
zeroed the source's backoff level (which was 1 before the rollover); in
general any operation on a new date zeroes every count and backoff level. -/
theorem rate_limiter_daily_cap_trace :
    ((wait 0 "jobsite" capTraceS0).1 = true
      ∧ (wait 0 "jobsite" capTraceS1).1 = true
      ∧ (wait 0 "jobsite" capTraceS2).1 = true
      ∧ (wait 0 "jobsite" capTraceS3).1 = false
      ∧ (can_request 0 "jobsite" capTraceS3).1 = false
      ∧ getBackoff capTraceS5 "jobsite" = 1
      ∧ (can_request 1 "jobsite" capTraceS5).1 = true
      ∧ getBackoff (can_request 1 "jobsite" capTraceS5).2 "jobsite" = 0)
    ∧ (∀ (st : RLState) (d : Nat) (brd q : String), d ≠ st.daily_date →
        getCount (can_request d brd st).2 q = 0
          ∧ getBackoff (can_request d brd st).2 q = 0) := by
  constructor
  · exact ⟨by decide, by decide, by decide, by decide, by decide, by decide,
      by decide, by decide⟩
  · intro st d brd q hd
    simp [can_request, resetDailyIfNeeded, hd, getCount, getBackoff, dictGet?]

/-- Closed witness for `rate_limiter_daily_cap_trace`: the date-rollover
conjunct applied at a concrete state and a different day. -/
theorem rate_limiter_daily_cap_trace_witness :
    getCount (can_request 1 "indeed" capTraceS4).2 "jobsite" = 0
      ∧ getBackoff (can_request 1 "indeed" capTraceS4).2 "jobsite" = 0 :=
  rate_limiter_daily_cap_trace.2 capTraceS4 1 "indeed" "jobsite" (by decide)

/-- C6: starting from a fresh limiter, every sequence of
`report_success`/`report_throttled`/`report_blocked` calls keeps each
source's backoff level in [0,5]; five throttles (from level 0) reach
exactly 5 and further throttles stay at 5; five subsequent successes
reach exactly 0 and further successes stay at 0 (never negative);
`report_blocked` always sets the level to 5. -/
theorem backoff_level_bounds (b : String) (today : Nat) :
    (∀ evs : List Report, ∀ q : String,
        0 ≤ getBackoff (applyReports evs (initLimiter [] today)) q
          ∧ getBackoff (applyReports evs (initLimiter [] today)) q ≤ 5)
    ∧ (∀ n : Nat,
        getBackoff (applyReports (List.replicate (5 + n) (.throttled b))
          (initLimiter [] today)) b = 5)
    ∧ (∀ n : Nat,
        getBackoff (applyReports (List.replicate (5 + n) (.success b))
          (applyReports (List.replicate 5 (.throttled b)) (initLimiter [] today))) b = 0)
    ∧ (∀ evs : List Report,
        getBackoff (report_blocked b (applyReports evs (initLimiter [] today))) b = 5) := by
  have hzero : ∀ q : String, getBackoff (initLimiter [] today) q = 0 := fun _ => rfl
  refine ⟨fun evs q => ?_, fun n => ?_, fun n => ?_, fun evs => ?_⟩
  · exact getBackoff_applyReports_mem evs _ q (by rw [hzero]; omega)
  · rw [getBackoff_throttled_replicate (5 + n) _ b (by rw [hzero]; omega), hzero]
    push_cast
    omega
  · have h5 : getBackoff (applyReports (List.replicate 5 (.throttled b))
        (initLimiter [] today)) b = 5 := by
      rw [getBackoff_throttled_replicate 5 _ b (by rw [hzero]; omega), hzero]
      omega
    rw [getBackoff_success_replicate (5 + n) _ b (by rw [h5]; omega), h5]
    push_cast
    omega
  · rw [getBackoff_report_blocked, if_pos rfl]

end Rates

/-! ## qa_bank.py -/

namespace QA

/-- One stored Q&A entry (the dicts held in `QABank.entries`). -/
structure QAEntry where
  question : String
  answer : String
  field_type : String
  category : String
  aliases : List String
  deriving DecidableEq, Repr

/-- The result dict of `QABank.get_answer`. -/
structure AnswerResult where
  answer : String
  confidence : ℚ
  field_type : String
  category : String
  source_question : String
  deriving DecidableEq, Repr

/-- A character stripped from the end of the normalized question by
`re.sub(r'[*:?\s]+$', '', q_lower)`. -/
def isTrailingJunk (c : Char) : Bool :=
  c == '*' || c == ':' || c == '?' || c.isWhitespace

/-- Strip trailing `[*:?\s]+` characters. -/
def rstripJunk (s : String) : String :=
  ⟨(s.toList.reverse.dropWhile isTrailingJunk).reverse⟩

/-- Python's `str.strip()`: drop whitespace from both ends. -/
def pyStrip (s : String) : String :=
  ⟨((s.toList.dropWhile Char.isWhitespace).reverse.dropWhile Char.isWhitespace).reverse⟩

/-- `question_text.lower().strip()` followed by the trailing-punctuation
strip (src/qa_bank.py lines 66-67). -/
def normalizeQuestion (q : String) : String :=
  rstripJunk (pyStrip (lowerStr q))

/-- The alias loop of `get_answer` (src/qa_bank.py lines 79-85): for each
alias, if either normalized string contains the other, score
`len(alias) / max(len(q_lower), 1)`; a score beating the running best
installs this entry with the score capped at 0.95. -/
def aliasCheck (qLower : String) (e : QAEntry) (acc : Option QAEntry × ℚ) :
    Option QAEntry × ℚ :=
  e.aliases.foldl
    (fun acc al =>
      if pyIn (lowerStr al) qLower || pyIn qLower (lowerStr al) then
        let score : ℚ := (al.length : ℚ) / max (qLower.length : ℚ) 1
        if acc.2 < score then (some e, min score (95 / 100)) else acc
      else acc)
    acc

/-- The fuzzy keyword match of `get_answer` (src/qa_bank.py lines 87-95):
with at least 3 shared distinct words, score `overlap / max(union, 1)`
discounted by 0.8. -/
def fuzzyCheck (qLower : String) (e : QAEntry) (acc : Option QAEntry × ℚ) :
    Option QAEntry × ℚ :=
  let entryWords := dedupFirst (wordsOf (lowerStr e.question))
  let qWords := dedupFirst (wordsOf qLower)
  let overlap := (entryWords.filter fun w => qWords.contains w).length
  if 3 ≤ overlap then
    let unionSize := (dedupFirst (entryWords ++ qWords)).length
    let score : ℚ := (overlap : ℚ) / max (unionSize : ℚ) 1
    if acc.2 < score then (some e, score * (8 / 10)) else acc
  else acc

/-- The entry loop of `get_answer` (src/qa_bank.py lines 72-95): an exact
match of the normalized question against the entry's lowercased question
short-circuits with confidence 1.0; otherwise the alias and fuzzy scores
update the running best and the loop continues. -/
def scanEntries (qLower : String) : List QAEntry → (Option QAEntry × ℚ) →
    Option QAEntry × ℚ
  | [], acc => acc
  | e :: rest, acc =>
    if lowerStr e.question = qLower then (some e, 1)
    else scanEntries qLower rest (fuzzyCheck qLower e (aliasCheck qLower e acc))

/-- `QABank.get_answer(question_text)` (src/qa_bank.py lines 56-110) for the
`job_context=None` path of the claims (with a context, `{placeholder}`
tokens in the answer are additionally substituted; no claim passes one).
Returns the best entry above the 0.3 confidence floor, or nothing. -/
def get_answer (entries : List QAEntry) (question_text : String) :
    Option AnswerResult :=
  let qLower := normalizeQuestion question_text
  match scanEntries qLower entries (none, 0) with
  | (some e, s) =>
      if 3 / 10 ≤ s then
        some ⟨e.answer, s, e.field_type, e.category, e.question⟩
      else none
  | (none, _) => none

/-- When some entry's lowercased question equals the normalized incoming
question, the scan ends with that confidence-1.0 short circuit. -/
theorem scanEntries_exact (qLower : String) (entries : List QAEntry)
    (acc : Option QAEntry × ℚ)
    (h : ∃ e ∈ entries, lowerStr e.question = qLower) :
    ∃ e', scanEntries qLower entries acc = (some e', 1)
      ∧ lowerStr e'.question = qLower := by
  induction entries generalizing acc with
  | nil => simp at h
  | cons e rest ih =>
    by_cases he : lowerStr e.question = qLower
    · exact ⟨e, by simp [scanEntries, he], he⟩
    · obtain ⟨e₀, hmem, hq⟩ := h
      rcases List.mem_cons.mp hmem with rfl | hmem'
      · exact absurd hq he
      · simpa [scanEntries, he] using ih _ ⟨e₀, hmem', hq⟩

/-- C2 amended: `get_answer` returns confidence exactly 1.0 whenever the
*lowercased stored question* equals the normalized incoming question — the
trailing-punctuation strip is applied to the incoming question only, never
to the stored question.  (The original claim fails: a stored question
ending in `"?"` can never match exactly, see
`get_answer_trailing_punct_counterexample`.) -/
theorem get_answer_exact_match_confidence_one (entries : List QAEntry)
    (q : String)
    (h : ∃ e ∈ entries, lowerStr e.question = normalizeQuestion q) :
    ∃ a, get_answer entries q = some a ∧ a.confidence = 1 := by
  obtain ⟨e', hscan, -⟩ := scanEntries_exact (normalizeQuestion q) entries (none, 0) h
  refine ⟨⟨e'.answer, 1, e'.field_type, e'.category, e'.question⟩, ?_, rfl⟩
  rw [get_answer]
  rw [hscan]
  norm_num

/-- The stored entry of the claim's concrete example. -/
def whyEntry : QAEntry :=
  ⟨"Why do you want to work here?", "I admire the mission.", "text", "motivation", []⟩

/-- C2 counterexample: with the stored question
`"Why do you want to work here?"`, the incoming text
`"why do you want to work here"` does **not** match with confidence 1.0;
the exact-match test compares against the stored question lowercased but
with its trailing `"?"` intact, so the match happens through the fuzzy
word-overlap path at confidence `6/8 * 0.8 = 0.6`. -/
theorem get_answer_trailing_punct_counterexample :
    get_answer [whyEntry] "why do you want to work here" =
      some ⟨"I admire the mission.", 3 / 5, "text", "motivation",
        "Why do you want to work here?"⟩
    ∧ ((3 : ℚ) / 5) ≠ 1 := by
  have hm : max (8 : ℚ) 1 = 8 := max_eq_left (by norm_num)
  have ha : aliasCheck "why do you want to work here" whyEntry
      ((none : Option QAEntry), (0 : ℚ)) = (none, 0) := rfl
  have ho : ((dedupFirst (wordsOf (lowerStr whyEntry.question))).filter
      fun w => (dedupFirst (wordsOf "why do you want to work here")).contains w).length
      = 6 := by decide
  have hu : (dedupFirst (dedupFirst (wordsOf (lowerStr whyEntry.question)) ++
      dedupFirst (wordsOf "why do you want to work here"))).length = 8 := by decide
  have hf : fuzzyCheck "why do you want to work here" whyEntry
      ((none : Option QAEntry), (0 : ℚ)) = (some whyEntry, (6 : ℚ) / 8 * (8 / 10)) := by
    simp only [fuzzyCheck, ho, hu, hm]
    norm_num
  have hscan : scanEntries "why do you want to work here" [whyEntry] (none, 0) =
      (some whyEntry, (6 : ℚ) / 8 * (8 / 10)) := by
    rw [scanEntries, if_neg (by decide :
      ¬ (lowerStr whyEntry.question = "why do you want to work here")), ha, hf]
    rfl
  have hq : normalizeQuestion "why do you want to work here" =
      "why do you want to work here" := by decide
  refine ⟨?_, by norm_num⟩
  simp only [get_answer, hq, hscan]
  norm_num [whyEntry]

/-- Closed witness for `get_answer_exact_match_confidence_one`: a stored
question with no trailing punctuation is matched exactly (confidence 1.0)
by an incoming text that normalizes to it. -/
theorem get_answer_exact_match_confidence_one_witness :
    ∃ a, get_answer
        [⟨"Why do you want to work here", "Mission.", "text", "motivation", []⟩]
        "Why do you want to work here?" = some a ∧ a.confidence = 1 :=
  get_answer_exact_match_confidence_one _ _
    ⟨⟨"Why do you want to work here", "Mission.", "text", "motivation", []⟩,
      List.mem_singleton.mpr rfl, by decide⟩

end QA

/-! ## apply_engine.py — the application queue -/

namespace Apply

/-- One entry of an `ApplicationRecord.action_log`. -/
structure ActionLogEntry where
  time : String
  action : String
  details : String
  deriving DecidableEq, Repr

/-- The `ApplicationRecord` dataclass (src/apply_engine.py lines 34-70). -/
structure ApplicationRecord where
  id : String
  job_id : String
  job_title : String
  company : String
  url : String
  score : ℤ
  apply_type : String
  ats_type : String
  easy_apply : Bool
  status : String
  materials_ready : Bool
  fields_filled : List String
  fields_skipped : List String
  errors : List String
  screenshot_path : String
  submitted_at : String
  created_at : String
  action_log : List ActionLogEntry
  resume_variant_id : String
  cover_letter_variant_id : String
  material_pairing_id : String
  outcome : String
  outcome_recorded_at : String
  deriving DecidableEq, Repr

/-- `ApplicationRecord.log_action(action, details)` (src/apply_engine.py
lines 65-70); the `datetime.now()` stamp is the explicit `now` argument. -/
def logAction (r : ApplicationRecord) (now action details : String) : ApplicationRecord :=
  { r with action_log := r.action_log ++ [⟨now, action, details⟩] }

/-- A scored job dict as consumed by `ApplicationQueue.add_jobs`: the keys
it reads, with `Option` for the keys read without a default
(`raw_id`, `id`, `apply_type`). -/
structure ScoredJob where
  raw_id : Option String
  id : Option String
  title : String
  company : String
  url : String
  matchScore : ℤ
  apply_type : Option String
  ats_platform : String
  easy_apply : Bool
  deriving DecidableEq, Repr

/-- `job.get("raw_id") or job.get("id", "")` (src/apply_engine.py line
111): the `or` falls through on a missing or empty `raw_id`. -/
def jobIdOf (j : ScoredJob) : String :=
  match j.raw_id with
  | some s => if s = "" then j.id.getD "" else s
  | none => j.id.getD ""

/-- The `ApplicationRecord(...)` construction plus the `"queued"` log
entry of `add_jobs` (src/apply_engine.py lines 117-128); `now` stands for
the `datetime.now()` timestamp of this run. -/
def mkQueuedRecord (now : String) (added : Nat) (j : ScoredJob) (jid : String) :
    ApplicationRecord :=
  logAction
    { id := "app_" ++ now ++ "_" ++ toString added
      job_id := jid
      job_title := j.title
      company := j.company
      url := j.url
      score := j.matchScore
      apply_type := j.apply_type.getD "quick-apply"
      ats_type := j.ats_platform
      easy_apply := j.easy_apply
      status := "queued"
      materials_ready := false
      fields_filled := []
      fields_skipped := []
      errors := []
      screenshot_path := ""
      submitted_at := ""
      created_at := now
      action_log := []
      resume_variant_id := ""
      cover_letter_variant_id := ""
      material_pairing_id := ""
      outcome := ""
      outcome_recorded_at := "" }
    now "queued"
    ("Score: " ++ toString j.matchScore ++ ", Type: " ++ j.apply_type.getD "quick-apply")

/-- The `for job in jobs` loop of `add_jobs` (src/apply_engine.py lines
110-131): skip ids already seen, skip `apply_type == "skip"`, otherwise
append a fresh queued record and remember the id. -/
def addJobsGo (now : String) : List ScoredJob → List ApplicationRecord →
    List String → Nat → List ApplicationRecord × Nat
  | [], queue, _, added => (queue, added)
  | j :: rest, queue, existing, added =>
    let jid := jobIdOf j
    if existing.contains jid then addJobsGo now rest queue existing added
    else if j.apply_type = some "skip" then addJobsGo now rest queue existing added
    else addJobsGo now rest (queue ++ [mkQueuedRecord now added j jid])
      (jid :: existing) (added + 1)

/-- `ApplicationQueue.add_jobs(jobs)` (src/apply_engine.py lines 101-135):
returns the new queue contents and the count actually added (the queue is
persisted after the loop; persistence itself is file I/O and not
modelled). -/
def add_jobs (queue : List ApplicationRecord) (jobs : List ScoredJob) (now : String) :
    List ApplicationRecord × Nat :=
  addJobsGo now jobs queue (queue.map fun a => a.job_id) 0

/-- `ApplicationQueue.update_status(app_id, status, **kwargs)`
(src/apply_engine.py lines 149-160).  The first record with the given id
gets the new status, a `status_change` log entry (whose details are the
printed kwargs, passed here as `kwargsText`), and the kwarg field
overrides, modelled as the record transformer `overrides` (the
`setattr` loop applied to the matched record).  Returns the queue and the
boolean result; `save()` is called exactly when the result is `true`. -/
def update_status (queue : List ApplicationRecord) (app_id status : String)
    (overrides : ApplicationRecord → ApplicationRecord) (kwargsText now : String) :
    List ApplicationRecord × Bool :=
  match queue with
  | [] => ([], false)
  | a :: rest =>
    if a.id = app_id then
      (overrides (logAction { a with status := status } now
        ("status_change:" ++ status) kwargsText) :: rest, true)
    else
      let r := update_status rest app_id status overrides kwargsText now
      (a :: r.1, r.2)

/-- The queue grows only by appending. -/
theorem addJobsGo_append (now : String) (jobs : List ScoredJob)
    (queue : List ApplicationRecord) (ex : List String) (added : Nat) :
    ∃ suffix, (addJobsGo now jobs queue ex added).1 = queue ++ suffix := by
  induction jobs generalizing queue ex added with
  | nil => exact ⟨[], by simp [addJobsGo]⟩
  | cons j rest ih =>
    rw [addJobsGo]
    by_cases h1 : jobIdOf j ∈ ex
    · rw [if_pos (List.elem_iff.mpr h1)]
      exact ih queue ex added
    · rw [if_neg (fun hc => h1 (List.elem_iff.mp hc))]
      by_cases h2 : j.apply_type = some "skip"
      · rw [if_pos h2]
        exact ih queue ex added
      · rw [if_neg h2]
        obtain ⟨s, hs⟩ := ih (queue ++ [mkQueuedRecord now added j (jobIdOf j)])
          (jobIdOf j :: ex) (added + 1)
        refine ⟨mkQueuedRecord now added j (jobIdOf j) :: s, ?_⟩
        rw [hs, List.append_assoc, List.singleton_append]

/-- Every record in the queue after the loop was already there or was
created from a job whose `apply_type` is not `"skip"`. -/
theorem addJobsGo_no_skip (now : String) (jobs : List ScoredJob)
    (queue : List ApplicationRecord) (ex : List String) (added : Nat) :
    ∀ r ∈ (addJobsGo now jobs queue ex added).1,
      r ∈ queue ∨ r.apply_type ≠ "skip" := by
  induction jobs generalizing queue ex added with
  | nil => intro r hr; exact Or.inl (by simpa [addJobsGo] using hr)
  | cons j rest ih =>
    intro r hr
    rw [addJobsGo] at hr
    by_cases h1 : jobIdOf j ∈ ex
    · rw [if_pos (List.elem_iff.mpr h1)] at hr
      exact ih queue ex added r hr
    · rw [if_neg (fun hc => h1 (List.elem_iff.mp hc))] at hr
      by_cases h2 : j.apply_type = some "skip"
      · rw [if_pos h2] at hr
        exact ih queue ex added r hr
      · rw [if_neg h2] at hr
        rcases ih _ _ _ r hr with hmem | hne
        · rcases List.mem_append.mp hmem with hq | hnew
          · exact Or.inl hq
          · right
            rw [List.mem_singleton.mp hnew]
            show (mkQueuedRecord now added j (jobIdOf j)).apply_type ≠ "skip"
            simp only [mkQueuedRecord, logAction]
            cases hat : j.apply_type with
            | none => simp [Option.getD]
            | some v =>
              simp only [Option.getD_some]
              intro hv
              exact h2 (by rw [hat, hv])
        · exact Or.inr hne

/-- After the loop, every processed job is either a skip job or its id is
among the final queue's job ids. -/
theorem addJobsGo_ids (now : String) (jobs : List ScoredJob)
    (queue : List ApplicationRecord) (ex : List String) (added : Nat)
    (hex : ∀ s ∈ ex, s ∈ queue.map fun a => a.job_id) :
    ∀ j ∈ jobs, j.apply_type = some "skip"
      ∨ jobIdOf j ∈ (addJobsGo now jobs queue ex added).1.map fun a => a.job_id := by
  induction jobs generalizing queue ex added with
  | nil => intro j hj; exact absurd hj (List.not_mem_nil j)
  | cons j0 rest ih =>
    intro j hj
    rw [addJobsGo]
    by_cases h1 : jobIdOf j0 ∈ ex
    · have h1' : List.contains ex (jobIdOf j0) = true := List.elem_iff.mpr h1
      rw [if_pos h1']
      rcases List.mem_cons.mp hj with rfl | hj'
      · right
        obtain ⟨s, hs⟩ := addJobsGo_append now rest queue ex added
        have hin : jobIdOf j ∈ queue.map fun a => a.job_id := hex _ h1
        rw [hs, List.map_append]
        exact List.mem_append_left _ hin
      · exact ih queue ex added hex j hj'
    · have h1' : ¬ (List.contains ex (jobIdOf j0) = true) :=
        fun hc => h1 (List.elem_iff.mp hc)
      rw [if_neg h1']
      by_cases h2 : j0.apply_type = some "skip"
      · rw [if_pos h2]
        rcases List.mem_cons.mp hj with rfl | hj'
        · exact Or.inl h2
        · exact ih queue ex added hex j hj'
      · rw [if_neg h2]
        have hjid0 : (mkQueuedRecord now added j0 (jobIdOf j0)).job_id = jobIdOf j0 := rfl
        have hex' : ∀ s ∈ jobIdOf j0 :: ex,
            s ∈ (queue ++ [mkQueuedRecord now added j0 (jobIdOf j0)]).map
              fun a => a.job_id := by
          intro s hs
          rw [List.map_append]
          rcases List.mem_cons.mp hs with rfl | hs'
          · refine List.mem_append_right _ ?_
            rw [List.map_singleton, hjid0]
            exact List.mem_singleton_self _
          · exact List.mem_append_left _ (hex _ hs')
        rcases List.mem_cons.mp hj with rfl | hj'
        · right
          obtain ⟨s, hs⟩ := addJobsGo_append now rest
            (queue ++ [mkQueuedRecord now added j (jobIdOf j)])
            (jobIdOf j :: ex) (added + 1)
          rw [hs, List.map_append, List.map_append]
          refine List.mem_append_left _ (List.mem_append_right _ ?_)
          rw [List.map_singleton]
          exact List.mem_singleton_self _
        · exact ih _ _ _ hex' j hj'

/-- When every job is a skip job or already seen, the loop is a no-op. -/
theorem addJobsGo_noop (now : String) (jobs : List ScoredJob)
    (queue : List ApplicationRecord) (ex : List String) (added : Nat)
    (h : ∀ j ∈ jobs, j.apply_type = some "skip" ∨ jobIdOf j ∈ ex) :
    addJobsGo now jobs queue ex added = (queue, added) := by
  induction jobs with
  | nil => rfl
  | cons j rest ih =>
    rw [addJobsGo]
    have ih' := ih fun j' hj' => h j' (List.mem_cons_of_mem j hj')
    rcases h j (List.mem_cons_self j rest) with hskip | hseen
    · by_cases h1 : jobIdOf j ∈ ex
      · rw [if_pos (List.elem_iff.mpr h1)]
        exact ih'
      · rw [if_neg (fun hc => h1 (List.elem_iff.mp hc)), if_pos hskip]
        exact ih'
    · rw [if_pos (List.elem_iff.mpr hseen)]
      exact ih'

/-- C8: `add_jobs` is idempotent by job id — a second call with the same
job list leaves the queue unchanged and returns 0 — and a job whose
`apply_type` is `"skip"` is never added to the queue by any call. -/
theorem add_jobs_idempotent_and_never_skip (queue : List ApplicationRecord)
    (jobs : List ScoredJob) (now now' : String) :
    add_jobs (add_jobs queue jobs now).1 jobs now' = ((add_jobs queue jobs now).1, 0)
    ∧ (∀ r ∈ (add_jobs queue jobs now).1, r ∈ queue ∨ r.apply_type ≠ "skip") := by
  constructor
  · have hids := addJobsGo_ids now jobs queue (queue.map fun a => a.job_id) 0
      (fun s hs => hs)
    exact addJobsGo_noop now' jobs _ _ 0 hids
  · exact addJobsGo_no_skip now jobs queue _ 0

/-- C10: `update_status` returns true exactly when a record with the given
id exists; for a missing id it returns false and leaves the queue
untouched (and, since `save()` runs only on the found path, nothing is
persisted). -/
theorem update_status_missing_id (queue : List ApplicationRecord)
    (app_id status : String) (overrides : ApplicationRecord → ApplicationRecord)
    (kwargsText now : String) :
    ((update_status queue app_id status overrides kwargsText now).2 = true
      ↔ ∃ r ∈ queue, r.id = app_id)
    ∧ ((∀ r ∈ queue, r.id ≠ app_id) →
        update_status queue app_id status overrides kwargsText now = (queue, false)) := by
  induction queue with
  | nil =>
    refine ⟨⟨fun hf => ?_, fun he => ?_⟩, fun _ => rfl⟩
    · simp [update_status] at hf
    · obtain ⟨r, hr, -⟩ := he
      exact absurd hr (List.not_mem_nil r)
  | cons a rest ih =>
    constructor
    · rw [update_status]
      by_cases ha : a.id = app_id
      · simp only [ha, if_true]
        exact ⟨fun _ => ⟨a, List.mem_cons_self a rest, ha⟩, fun _ => by trivial⟩
      · simp only [ha, if_false, Bool.false_eq_true, ite_false]
        constructor
        · intro hfound
          obtain ⟨r, hr, hrid⟩ := ih.1.mp hfound
          exact ⟨r, List.mem_cons_of_mem a hr, hrid⟩
        · rintro ⟨r, hr, hrid⟩
          rcases List.mem_cons.mp hr with rfl | hr'
          · exact absurd hrid ha
          · exact ih.1.mpr ⟨r, hr', hrid⟩
    · intro hnone
      rw [update_status]
      have ha : ¬ a.id = app_id := hnone a (List.mem_cons_self a rest)
      have hrest := ih.2 fun r hr => hnone r (List.mem_cons_of_mem a hr)
      simp [ha, hrest]

/-- Closed witness for `update_status_missing_id`: a concrete one-record
queue and an id not present in it. -/
theorem update_status_missing_id_witness :
    update_status [mkQueuedRecord "20260101" 0
        ⟨some "j1", none, "PM", "Acme", "u", 80, none, "", false⟩ "j1"]
      "app_nope" "filling" id "" "20260101"
      = ([mkQueuedRecord "20260101" 0
          ⟨some "j1", none, "PM", "Acme", "u", 80, none, "", false⟩ "j1"], false) :=
  (update_status_missing_id _ "app_nope" "filling" id "" "20260101").2
    (by decide)

end Apply

/-! ## scheduler.py — the apply task of `run_once` -/

namespace Sched

/-- The `"apply"` entry of the schedule configuration, restricted to the
keys `Scheduler.run_once` reads when launching the apply engine
(src/scheduler.py lines 138-144): `mode` and `max_per_run`, `Option`
because both are read with `dict.get`.  (`enabled`/`times`/`days` gate
`should_run` and do not influence the launched call's arguments.) -/
structure ApplyScheduleCfg where
  mode : Option String
  max_per_run : Option Nat
  deriving DecidableEq, Repr

/-- The `"apply"` entry of `DEFAULT_SCHEDULE` (src/scheduler.py lines
24-31): disabled by default, mode `"semi-auto"`, `max_per_run` 10. -/
def DEFAULT_APPLY_SCHEDULE : ApplyScheduleCfg := ⟨some "semi-auto", some 10⟩

/-- `engine.mode = apply_config.get("mode", "semi-auto")`
(src/scheduler.py line 140). -/
def applyEngineMode (cfg : ApplyScheduleCfg) : String :=
  cfg.mode.getD "semi-auto"

/-- `dry_run=apply_config.get("mode") == "semi-auto"` (src/scheduler.py
line 143) — note: `get` **without** a default here. -/
def applyDryRunArg (cfg : ApplyScheduleCfg) : Bool :=
  cfg.mode == some "semi-auto"

/-- `limit=apply_config.get("max_per_run", 10)` (src/scheduler.py line 142). -/
def applyLimitArg (cfg : ApplyScheduleCfg) : Nat :=
  cfg.max_per_run.getD 10

/-- Whether one record processed by `ApplyEngine.process_queue` is
submitted (counter increment / `"submitted"` status), as a function of the
control-flow inputs that decide it (src/apply_engine.py lines 256-264 and
323-359): the easy-apply success path submits only outside dry-run in
full-auto mode; otherwise dry-run always ends at `ready-for-review`,
full-auto submits iff the submit click succeeds, and the batch/semi-auto
branches end at `ready-for-review`. -/
def recordSubmits (mode : String) (dryRun easyApply easySuccess submitClicked : Bool) :
    Bool :=
  if easyApply && easySuccess then !dryRun && mode == "full-auto"
  else if dryRun then false
  else if mode == "full-auto" then submitClicked
  else false

/-- C1 counterexample: when the `mode` field is absent from the apply
schedule configuration, `run_once` passes `dry_run=False` to
`process_queue` (line 143 reads the key with no default), even though the
engine's mode defaults to `"semi-auto"` — so dry-run behavior is **not**
forced on, contradicting the claim's parenthetical. -/
theorem scheduler_missing_mode_counterexample :
    applyDryRunArg ⟨none, none⟩ = false
      ∧ applyEngineMode ⟨none, none⟩ = "semi-auto" :=
  ⟨rfl, rfl⟩

/-- C1 amended: `run_once` passes `dry_run=True` to `process_queue` iff
the apply schedule's `mode` field is present and equals `"semi-auto"` (in
particular `DEFAULT_SCHEDULE` does force dry-run); when the field is
absent, `dry_run=False` is passed while the engine's mode still defaults
to `"semi-auto"` — under which `process_queue` nonetheless never submits
an application along any control path. -/
theorem scheduler_semi_auto_never_submits (cfg : ApplyScheduleCfg) :
    (applyDryRunArg cfg = true ↔ cfg.mode = some "semi-auto")
    ∧ applyDryRunArg DEFAULT_APPLY_SCHEDULE = true
    ∧ (cfg.mode = none →
        applyEngineMode cfg = "semi-auto" ∧ applyDryRunArg cfg = false)
    ∧ (∀ dryRun easyApply easySuccess submitClicked : Bool,
        recordSubmits "semi-auto" dryRun easyApply easySuccess submitClicked = false) := by
  refine ⟨?_, rfl, fun hm => ⟨?_, ?_⟩, by decide⟩
  · cases hm : cfg.mode with
    | none => simp [applyDryRunArg, hm]
    | some v => simp [applyDryRunArg, hm]
  · rw [applyEngineMode, hm]
    rfl
  · rw [applyDryRunArg, hm]
    rfl

/-- Closed witness for `scheduler_semi_auto_never_submits` at the
missing-`mode` configuration. -/
theorem scheduler_semi_auto_never_submits_witness :
    applyEngineMode ⟨none, some 5⟩ = "semi-auto" ∧ applyDryRunArg ⟨none, some 5⟩ = false :=
  (scheduler_semi_auto_never_submits ⟨none, some 5⟩).2.2.1 rfl

end Sched

/-! ## scoring_engine.py -/

namespace Scoring

/-- `RESUME_KEYWORDS["high_value"]` (src/scoring_engine.py lines 19-26). -/
def RESUME_KEYWORDS_high : List (String × Nat) := [
  ("product manager", 4), ("product management", 4), ("AI", 3), ("machine learning", 3),
  ("biotechnology", 3), ("biotech", 3), ("pharma", 3), ("bioinformatics", 3),
  ("data governance", 3), ("analytics", 2), ("SaaS", 3), ("agile", 2), ("scrum", 2),
  ("cross functional", 2), ("roadmap", 2), ("stakeholder", 2), ("strategy", 2),
  ("LLM", 3), ("generative AI", 3), ("python", 2), ("AWS", 2), ("program manager", 3),
  ("product strategy", 3), ("user research", 2), ("product owner", 3)]

/-- `RESUME_KEYWORDS["medium_value"]` (src/scoring_engine.py lines 27-33). -/
def RESUME_KEYWORDS_medium : List (String × Nat) := [
  ("MBA", 2), ("digital", 1), ("platform", 2), ("quality control", 2),
  ("QC", 1), ("lab", 1), ("regulatory", 2), ("compliance", 2), ("clinical", 2),
  ("R&D", 2), ("research", 1), ("innovation", 1), ("startup", 2),
  ("defense", 2), ("aerospace", 2), ("government", 1), ("project manager", 2),
  ("adjunct", 2), ("professor", 2), ("instructor", 2), ("teaching", 1)]

/-- `RESUME_KEYWORDS["low_value"]` (src/scoring_engine.py lines 34-39). -/
def RESUME_KEYWORDS_low : List (String × Nat) := [
  ("leadership", 1), ("communication", 1), ("presentation", 1), ("excel", 1),
  ("sql", 1), ("tableau", 1), ("visualization", 1), ("reporting", 1),
  ("analysis", 1), ("team", 1), ("collaboration", 1), ("documentation", 1),
  ("budget", 1), ("jira", 1), ("confluence", 1)]

/-- `SENIORITY_BOOSTS` (src/scoring_engine.py lines 43-47), in dict
insertion order — `_score_seniority` applies the first match only. -/
def SENIORITY_BOOSTS : List (String × ℤ) := [
  ("senior", 8), ("sr", 8), ("lead", 10), ("principal", 6),
  ("head of", 5), ("director", 3), ("vp", -5), ("chief", -10),
  ("junior", -10), ("jr", -10), ("entry", -15), ("intern", -20), ("associate", -5)]

/-- `COMPANY_TIERS` (src/scoring_engine.py lines 50-67): name lists with
their boosts, in dict order. -/
def COMPANY_TIERS : List (List String × ℤ) := [
  (["amgen", "google", "apple", "microsoft", "meta", "amazon", "nvidia",
    "genentech", "gilead", "abbvie", "regeneron", "illumina", "thermo fisher",
    "boeing", "lockheed martin", "raytheon", "northrop grumman", "spacex"], 10),
  (["snap", "salesforce", "adobe", "netflix", "uber", "airbnb", "stripe",
    "moderna", "biogen", "vertex", "exact sciences", "10x genomics",
    "general atomics", "l3harris", "bae systems", "aerojet"], 7),
  (["startup", "series a", "series b", "seed stage", "ycombinator"], 5)]

/-- `PREFERRED_LOCATIONS` (src/scoring_engine.py lines 71-73). -/
def PREFERRED_LOCATIONS : List (String × Nat) := [
  ("remote", 12), ("work from home", 12), ("hybrid", 8)]

/-- The `target_roles` list of `_score_title` (src/scoring_engine.py lines
214-221). -/
def targetRoles : List (String × Nat) := [
  ("product manager", 20), ("program manager", 15), ("product owner", 14),
  ("ai product", 18), ("ml product", 18), ("data product", 16),
  ("technical product", 16), ("product strategy", 15),
  ("adjunct", 12), ("professor", 12), ("instructor", 12),
  ("project manager", 10), ("data governance", 14),
  ("quality control", 10), ("quality assurance", 8)]

/-- A job dict as read by `ScoringEngine.score`: the string fields it
consults (missing keys read as `""` via the code's `or ""` / `get`
defaults), `easy_apply`, and `daysOld` — the `(datetime.now() -
posted_date).days` value `_score_freshness` computes, `none` standing for
a missing or unparseable `posted_date` (both code paths return 5). -/
structure Job where
  title : String
  description : String
  company : String
  location : String
  salary_range : String
  easy_apply : Bool
  daysOld : Option ℤ
  deriving DecidableEq, Repr

/-- The `ScoringEngine` state the claims range over: the engine built
without config scoring overrides (keyword/seniority/tier/location tables
are the module defaults above), with arbitrary learned adaptive weights
(`scoring_weights.json`) and an optional active watchlist (`none` models
`self.config` being `None`, so the watchlist bonus is skipped). -/
structure Engine where
  adaptiveTitleBoosts : List (String × ℤ)
  adaptiveCompanyBoosts : List (String × ℤ)
  watchlist : Option (List String)
  deriving DecidableEq, Repr

/-- `keyword.lower() in text` for one keyword. -/
def kwHit (text : List Char) (k : String) : Bool :=
  infixOf (lowerChars k) text

/-- The matched-weight total of one keyword dictionary. -/
def keywordSum (text : List Char) : List (String × Nat) → Nat
  | [] => 0
  | (k, w) :: t => (if kwHit text k then w else 0) + keywordSum text t

/-- The `max_possible` accumulation: the total weight of a dictionary. -/
def totalWeight : List (String × Nat) → Nat
  | [] => 0
  | (_, w) :: t => w + totalWeight t

/-- `f"{title} {description}".lower()` as a character list. -/
def jobText (j : Job) : List Char :=
  lowerChars (j.title ++ " " ++ j.description)

/-- `ScoringEngine._score_keywords` (src/scoring_engine.py lines 184-207);
`int((score / max_possible) * 30)` on Python floats is modelled as the
integer part of the exact rational, i.e. `score * 30 / max_possible` in
natural-number division. -/
def score_keywords (j : Job) : Nat :=
  let text := jobText j
  let score := keywordSum text RESUME_KEYWORDS_high
    + keywordSum text RESUME_KEYWORDS_medium + keywordSum text RESUME_KEYWORDS_low
  let maxPossible := totalWeight RESUME_KEYWORDS_high
    + totalWeight RESUME_KEYWORDS_medium + totalWeight RESUME_KEYWORDS_low
  if maxPossible = 0 then 0 else min 30 (score * 30 / maxPossible)

/-- `ScoringEngine._score_title` (src/scoring_engine.py lines 209-227):
the highest matching target-role value, capped at 20. -/
def score_title (j : Job) : Nat :=
  let title := lowerChars j.title
  min 20 (targetRoles.foldl
    (fun acc p => if infixOf p.1.toList title then max acc p.2 else acc) 0)

/-- `ScoringEngine._score_seniority` (src/scoring_engine.py lines
229-239): base 8 plus the first matching boost, clamped to [0,15]. -/
def score_seniority (j : Job) : ℤ :=
  let title := lowerChars j.title
  let score : ℤ :=
    match SENIORITY_BOOSTS.find? (fun p => infixOf p.1.toList title) with
    | some p => 8 + p.2
    | none => 8
  max 0 (min 15 score)

/-- `ScoringEngine._score_location` (src/scoring_engine.py lines 241-250):
the highest matching preferred-location value, capped at 15. -/
def score_location (j : Job) : Nat :=
  let loc := lowerChars j.location
  min 15 (PREFERRED_LOCATIONS.foldl
    (fun acc p => if infixOf p.1.toList loc then max acc p.2 else acc) 0)

/-- `ScoringEngine._score_company` (src/scoring_engine.py lines 252-263):
the first tier with a name occurring in company+description wins
`min(10, boost)`; otherwise the baseline 3. -/
def score_company (j : Job) : ℤ :=
  let text := lowerChars j.company ++ ' ' :: lowerChars j.description
  match COMPANY_TIERS.find? (fun tier => tier.1.any fun n => infixOf n.toList text) with
  | some tier => min 10 tier.2
  | none => 3

/-- The day-bucket ladder of `_score_freshness` (src/scoring_engine.py
lines 265-286) over the computed `days_old`; `none` stands for a missing
or unparseable `posted_date` (both code paths return 5). -/
def freshnessFromDays : Option ℤ → Nat
  | none => 5
  | some d =>
    if d ≤ 1 then 10 else if d ≤ 3 then 8 else if d ≤ 7 then 6
    else if d ≤ 14 then 4 else 2

/-- `ScoringEngine._score_freshness`. -/
def score_freshness (j : Job) : Nat :=
  freshnessFromDays j.daysOld

/-- The watchlist part of the bonus block (src/scoring_engine.py lines
160-165), split on whether a config manager (and hence a watchlist) is
present: +5 when an active watchlist entry's `companyName` matches the
company case-insensitively. -/
def watchFromList : Option (List String) → String → ℤ
  | none, _ => 0
  | some ws, company => if ws.any (fun w => lowerStr w = lowerStr company) then 5 else 0

/-- The watchlist bonus of this engine for a company. -/
def watchBonus (eng : Engine) (company : String) : ℤ :=
  watchFromList eng.watchlist company

/-- The bonus block of `score` (src/scoring_engine.py lines 154-166):
+3 easy_apply, +2 salary_range present, watchlist bonus, capped at 10. -/
def bonuses (eng : Engine) (j : Job) : ℤ :=
  min ((if j.easy_apply then 3 else 0) + (if j.salary_range ≠ "" then 2 else 0)
    + watchBonus eng j.company) 10

/-- `ScoringEngine._apply_adaptive` (src/scoring_engine.py lines 288-304):
learned per-pattern title and company boosts summed, clamped to [-10,10]. -/
def adaptive (eng : Engine) (j : Job) : ℤ :=
  let title := lowerChars j.title
  let comp := lowerChars j.company
  max (-10) (min 10
    (eng.adaptiveTitleBoosts.foldl
        (fun acc p => if infixOf (lowerChars p.1) title then acc + p.2 else acc) 0
      + eng.adaptiveCompanyBoosts.foldl
        (fun acc p => if infixOf (lowerChars p.1) comp then acc + p.2 else acc) 0))

/-- `ScoringEngine.score(job)["total"]` (src/scoring_engine.py lines
124-182): the six dimension scores plus bonuses plus the adaptive
adjustment, clamped to [0,100] by `max(0, min(100, int(raw_total)))`
(every summand is an integer, so `int` is the identity). -/
def score_total (eng : Engine) (j : Job) : ℤ :=
  max 0 (min 100
    ((score_keywords j : ℤ) + (score_title j : ℤ) + score_seniority j
      + (score_location j : ℤ) + score_company j + (score_freshness j : ℤ)
      + bonuses eng j + adaptive eng j))

theorem lowerChars_append (a b : String) :
    lowerChars (a ++ b) = lowerChars a ++ lowerChars b := by
  show ((a ++ b).data.map Char.toLower) = (a.data.map Char.toLower) ++ (b.data.map Char.toLower)
  rw [String.data_append, List.map_append]

theorem infixOf_append_left (n p h : List Char) (hh : infixOf n h = true) :
    infixOf n (p ++ h) = true := by
  induction p with
  | nil => simpa using hh
  | cons c t ih => simp [infixOf, ih]

theorem keywordSum_mono (tB tA : List Char) (l : List (String × Nat))
    (hmono : ∀ k, kwHit tB k = true → kwHit tA k = true) :
    keywordSum tB l ≤ keywordSum tA l := by
  induction l with
  | nil => exact le_refl 0
  | cons p t ih =>
    obtain ⟨k, w⟩ := p
    rw [keywordSum, keywordSum]
    by_cases hB : kwHit tB k = true
    · rw [if_pos hB, if_pos (hmono k hB)]
      exact Nat.add_le_add_left ih w
    · rw [if_neg hB]
      exact Nat.add_le_add (Nat.zero_le _) ih

theorem score_keywords_le (j : Job) : score_keywords j ≤ 30 := by
  rw [score_keywords]
  split
  · omega
  · exact min_le_left 30 _

/-- Keyword score is monotone when one job's text extends the other's with
a prefix. -/
theorem score_keywords_mono (j1 j2 : Job) (p : List Char)
    (htext : jobText j2 = p ++ jobText j1) :
    score_keywords j1 ≤ score_keywords j2 := by
  have hmono : ∀ k, kwHit (jobText j1) k = true → kwHit (jobText j2) k = true := by
    intro k hk
    rw [kwHit, htext]
    exact infixOf_append_left _ _ _ hk
  have hsum : keywordSum (jobText j1) RESUME_KEYWORDS_high
      + keywordSum (jobText j1) RESUME_KEYWORDS_medium
      + keywordSum (jobText j1) RESUME_KEYWORDS_low
      ≤ keywordSum (jobText j2) RESUME_KEYWORDS_high
      + keywordSum (jobText j2) RESUME_KEYWORDS_medium
      + keywordSum (jobText j2) RESUME_KEYWORDS_low := by
    have h1 := keywordSum_mono _ _ RESUME_KEYWORDS_high hmono
    have h2 := keywordSum_mono _ _ RESUME_KEYWORDS_medium hmono
    have h3 := keywordSum_mono _ _ RESUME_KEYWORDS_low hmono
    omega
  rw [score_keywords, score_keywords]
  split
  · omega
  · refine min_le_min (le_refl 30) ?_
    exact Nat.div_le_div_right (Nat.mul_le_mul_right 30 hsum)

theorem score_seniority_bounds (j : Job) :
    0 ≤ score_seniority j ∧ score_seniority j ≤ 15 := by
  rw [score_seniority]
  omega

theorem score_company_bounds (j : Job) :
    0 ≤ score_company j ∧ score_company j ≤ 10 := by
  rw [score_company]
  generalize hfind : COMPANY_TIERS.find? _ = res
  cases res with
  | none => exact ⟨by norm_num, by norm_num⟩
  | some tier =>
    have hmem := List.mem_of_find?_eq_some hfind
    simp only [COMPANY_TIERS, List.mem_cons, List.not_mem_nil, or_false] at hmem
    rcases hmem with rfl | rfl | rfl <;> exact ⟨by norm_num, by norm_num⟩

theorem freshnessFromDays_bounds (o : Option ℤ) :
    2 ≤ freshnessFromDays o ∧ freshnessFromDays o ≤ 10 := by
  cases o with
  | none => exact ⟨by decide, by decide⟩
  | some d =>
    rw [freshnessFromDays]
    split_ifs <;> constructor <;> norm_num

theorem score_freshness_bounds (j : Job) :
    2 ≤ score_freshness j ∧ score_freshness j ≤ 10 := by
  rw [score_freshness]
  exact freshnessFromDays_bounds j.daysOld

theorem watchBonus_cases (eng : Engine) (c : String) :
    watchBonus eng c = 0 ∨ watchBonus eng c = 5 := by
  rw [watchBonus]
  cases eng.watchlist with
  | none => exact Or.inl rfl
  | some ws =>
    rw [watchFromList]
    by_cases h : ws.any (fun w => lowerStr w = lowerStr c) = true
    · rw [if_pos h]; exact Or.inr rfl
    · rw [if_neg h]; exact Or.inl rfl

theorem adaptive_bounds (eng : Engine) (j : Job) :
    -10 ≤ adaptive eng j ∧ adaptive eng j ≤ 10 := by
  rw [adaptive]
  omega

/-- C4: for every job (over any adaptive weights and watchlist),
`score(job)["total"]` is an integer in [0,100]; and the
`"Senior Product Manager" / "Remote" / easy_apply / salary_range` job
scores strictly higher than the otherwise-identical
`"Product Manager" / "Chicago, IL" / no-easy-apply / no-salary` job. -/
theorem score_total_bounds_and_comparison :
    (∀ (eng : Engine) (j : Job),
      0 ≤ score_total eng j ∧ score_total eng j ≤ 100)
    ∧ (∀ (eng : Engine) (desc comp sal : String) (dOld : Option ℤ),
        sal ≠ "" →
        score_total eng ⟨"Product Manager", desc, comp, "Chicago, IL", "", false, dOld⟩
          < score_total eng ⟨"Senior Product Manager", desc, comp, "Remote", sal, true, dOld⟩) := by
  constructor
  · intro eng j
    rw [score_total]
    omega
  · intro eng desc comp sal dOld hsal
    set jA : Job := ⟨"Senior Product Manager", desc, comp, "Remote", sal, true, dOld⟩
      with hjA
    set jB : Job := ⟨"Product Manager", desc, comp, "Chicago, IL", "", false, dOld⟩
      with hjB
    have htext : jobText jA = "senior ".toList ++ jobText jB := by
      show lowerChars ("Senior Product Manager" ++ " " ++ desc) =
        "senior ".toList ++ lowerChars ("Product Manager" ++ " " ++ desc)
      rw [lowerChars_append, lowerChars_append, lowerChars_append, lowerChars_append]
      rw [show lowerChars "Senior Product Manager" =
        "senior ".toList ++ lowerChars "Product Manager" from by decide]
      simp only [List.append_assoc]
    have hkw := score_keywords_mono jB jA _ htext
    have hkA := score_keywords_le jA
    have htitleA : score_title jA = 20 := by
      rw [show score_title jA =
        score_title ⟨"Senior Product Manager", "", "", "", "", false, none⟩ from rfl]
      decide
    have htitleB : score_title jB = 20 := by
      rw [show score_title jB =
        score_title ⟨"Product Manager", "", "", "", "", false, none⟩ from rfl]
      decide
    have hsenA : score_seniority jA = 15 := by
      rw [show score_seniority jA =
        score_seniority ⟨"Senior Product Manager", "", "", "", "", false, none⟩ from rfl]
      decide
    have hsenB : score_seniority jB = 8 := by
      rw [show score_seniority jB =
        score_seniority ⟨"Product Manager", "", "", "", "", false, none⟩ from rfl]
      decide
    have hlocA : score_location jA = 12 := by
      rw [show score_location jA =
        score_location ⟨"", "", "", "Remote", "", false, none⟩ from rfl]
      decide
    have hlocB : score_location jB = 0 := by
      rw [show score_location jB =
        score_location ⟨"", "", "", "Chicago, IL", "", false, none⟩ from rfl]
      decide
    have hcomp : score_company jA = score_company jB := rfl
    have hcompb := score_company_bounds jB
    have hfr : score_freshness jA = score_freshness jB := rfl
    have hfrb := score_freshness_bounds jB
    have hbonA : bonuses eng jA = min (3 + 2 + watchBonus eng comp) 10 := by
      rw [bonuses, if_pos (show jA.easy_apply = true from rfl),
        if_pos (show jA.salary_range ≠ "" from hsal)]
    have hbonB : bonuses eng jB = min (0 + 0 + watchBonus eng comp) 10 := by
      rw [bonuses, if_neg (show ¬ jB.easy_apply = true from Bool.false_ne_true),
        if_neg (show ¬ jB.salary_range ≠ "" from fun h => h rfl)]
    have hw := watchBonus_cases eng comp
    have hadA := adaptive_bounds eng jA
    have hadB := adaptive_bounds eng jB
    rw [score_total, score_total, hbonA, hbonB, hcomp, hfr,
      htitleA, htitleB, hsenA, hsenB, hlocA, hlocB]
    omega

/-- Closed witness for `score_total_bounds_and_comparison` at a concrete
engine and job pair. -/
theorem score_total_comparison_witness :
    score_total ⟨[], [], none⟩
        ⟨"Product Manager", "Build roadmaps.", "Acme", "Chicago, IL", "", false, none⟩
      < score_total ⟨[], [], none⟩
        ⟨"Senior Product Manager", "Build roadmaps.", "Acme", "Remote",
          "$150k-$180k", true, none⟩ :=
  score_total_bounds_and_comparison.2 ⟨[], [], none⟩ "Build roadmaps." "Acme"
    "$150k-$180k" none (by decide)

end Scoring

/-! ## dedup_engine.py -/

namespace Dedup

/-- A job dict as handled by `DeduplicationEngine.deduplicate`: the
RawJob.to_dict string fields it reads (missing modelled as `""`, matching
the dicts produced by the scrapers) plus the fields the engine itself
adds (`sources`, `all_urls`, `easy_apply_url`, empty before dedup). -/
structure DJob where
  title : String
  company : String
  location : String
  url : String
  board_source : String
  description : String
  salary_range : String
  posted_date : String
  ats_platform : String
  job_type : String
  easy_apply : Bool
  easy_apply_url : String
  sources : List String
  all_urls : List String
  deriving DecidableEq, Repr, Inhabited

/-- The tail after the first occurrence of `sep`, if any. -/
def afterSubstr (sep : List Char) : List Char → Option (List Char)
  | [] => if sep.isEmpty then some [] else none
  | c :: t =>
    if List.isPrefixOf sep (c :: t) then some ((c :: t).drop sep.length)
    else afterSubstr sep t

/-- `normalize_url(url)` (src/dedup_engine.py lines 42-53):
`urlparse`-style netloc+path (query/fragment dropped), trailing slashes
stripped from the path, lowercased, leading `www.` removed.  The
`scheme://netloc/path` parse is modelled for the http(s)-style URLs this
system scrapes (a URL with no `://` contributes only its path, exactly as
`urlparse` treats it). -/
def normalize_url (url : String) : String :=
  if url = "" then ""
  else
    let parsed : List Char × List Char :=
      match afterSubstr "://".toList url.toList with
      | some rest =>
        let netloc := rest.takeWhile fun c => c ≠ '/' ∧ c ≠ '?' ∧ c ≠ '#'
        (netloc, (rest.drop netloc.length).takeWhile fun c => c ≠ '?' ∧ c ≠ '#')
      | none => ([], url.toList.takeWhile fun c => c ≠ '?' ∧ c ≠ '#')
    let path := (parsed.2.reverse.dropWhile fun c => c = '/').reverse
    let clean := (parsed.1 ++ path).map Char.toLower
    ⟨if List.isPrefixOf "www.".toList clean then clean.drop 4 else clean⟩

/-- `richness_score(job_dict)` (src/dedup_engine.py lines 67-84): up to 50
points for description length, 20 for salary, 10 for posted date, 15 for
easy apply, 5 each for ATS platform, job type and URL. -/
def richness_score (j : DJob) : ℚ :=
  (if j.description ≠ "" then ((min j.description.length 5000 : ℕ) : ℚ) / 100 else 0)
    + (if j.salary_range ≠ "" then 20 else 0)
    + (if j.posted_date ≠ "" then 10 else 0)
    + (if j.easy_apply then 15 else 0)
    + (if j.ats_platform ≠ "" then 5 else 0)
    + (if j.job_type ≠ "" then 5 else 0)
    + (if j.url ≠ "" then 5 else 0)

/-- Stable insertion step for descending richness order. -/
def insertByRichness (x : DJob) : List DJob → List DJob
  | [] => [x]
  | y :: t =>
    if richness_score y ≤ richness_score x then x :: y :: t
    else y :: insertByRichness x t

/-- `group.sort(key=richness_score, reverse=True)`: Python's stable sort,
descending by richness (equal keys keep their original order). -/
def sortByRichnessDesc : List DJob → List DJob
  | [] => []
  | x :: t => insertByRichness x (sortByRichnessDesc t)

/-- One iteration of the backfill loop of `_merge_group`
(src/dedup_engine.py lines 200-215): fill each still-empty field of the
base from this member, and absorb `easy_apply` with its URL. -/
def backfillOne (best job : DJob) : DJob :=
  let b1 := if best.description = "" ∧ job.description ≠ "" then
    { best with description := job.description } else best
  let b2 := if b1.salary_range = "" ∧ job.salary_range ≠ "" then
    { b1 with salary_range := job.salary_range } else b1
  let b3 := if b2.posted_date = "" ∧ job.posted_date ≠ "" then
    { b2 with posted_date := job.posted_date } else b2
  let b4 := if b3.ats_platform = "" ∧ job.ats_platform ≠ "" then
    { b3 with ats_platform := job.ats_platform } else b3
  let b5 := if b4.job_type = "" ∧ job.job_type ≠ "" then
    { b4 with job_type := job.job_type } else b4
  if job.easy_apply then
    let b6 := { b5 with easy_apply := true }
    if job.url ≠ "" then { b6 with easy_apply_url := job.url } else b6
  else b5

/-- `DeduplicationEngine._merge_group(group)` (src/dedup_engine.py lines
184-220): a singleton keeps its record with `sources = [board_source]`; a
larger group is sorted richest-first, the richest copy becomes the base,
`sources` collects every member's board, empty fields are backfilled in
sorted order, and `all_urls` collects the non-empty urls.  (The `[]` case
never arises: every caller passes a nonempty group.) -/
def merge_group : List DJob → DJob
  | [] => default
  | [j] => { j with sources := [j.board_source] }
  | j1 :: j2 :: rest =>
    match sortByRichnessDesc (j1 :: j2 :: rest) with
    | [] => default
    | b :: btail =>
      let best := { b with sources := dedupFirst ((b :: btail).map fun j => j.board_source) }
      let best := btail.foldl backfillOne best
      { best with
        all_urls := dedupFirst (((b :: btail).map fun j => j.url).filter fun u => u ≠ "") }

/-- Append a job to its url group, keeping first-seen key order
(defaultdict insertion semantics). -/
def addToGroups (key : String) (j : DJob) :
    List (String × List DJob) → List (String × List DJob)
  | [] => [(key, [j])]
  | (k, g) :: t =>
    if k = key then (k, g ++ [j]) :: t else (k, g) :: addToGroups key j t

/-- Phase 1 of `deduplicate` (src/dedup_engine.py lines 117-125): group by
normalized URL; jobs without one go to the `no_url` list, in order. -/
def phase1 (jobs : List DJob) : List (String × List DJob) × List DJob :=
  jobs.foldl
    (fun acc j =>
      let nu := normalize_url j.url
      if nu = "" then (acc.1, acc.2 ++ [j]) else (addToGroups nu j acc.1, acc.2))
    ([], [])

/-- The pure text-similarity helpers of the engine, taken as parameters:
`ratio` stands for `difflib.SequenceMatcher(None, a, b).ratio()` and
`normTitle`/`normCompany` for the regex pipelines `normalize_title` /
`normalize_company` (src/dedup_engine.py lines 18-39, 56-60).  The claims
settled here hold for **every** choice of these functions (their values are
provably never consumed on the claim's input), so the parameterisation
loses nothing. -/
structure FuzzyParams where
  ratio : String → String → ℚ
  normTitle : String → String
  normCompany : String → String

/-- `fuzzy_match(s1, s2, threshold)` (src/dedup_engine.py lines 56-60):
false when either side is empty, else the similarity ratio meets the
threshold. -/
def fuzzy_match (ratio : String → String → ℚ) (s1 s2 : String) (threshold : ℚ) : Bool :=
  if s1 = "" ∨ s2 = "" then false else decide (threshold ≤ ratio s1 s2)

/-- The inner `for j, job_b in enumerate(all_candidates)` loop of phase 2
(src/dedup_engine.py lines 146-161): skip consumed or non-later
candidates, absorb any candidate whose normalized title and company both
fuzzy-match the cluster seed. -/
def innerScan (fp : FuzzyParams) (tThr cThr : ℚ) (ntA ncA : String) (i : Nat) :
    List (Nat × DJob) → List Nat → List DJob × List Nat
  | [], used => ([], used)
  | (jdx, b) :: rest, used =>
    if used.contains jdx || decide (jdx ≤ i) then
      innerScan fp tThr cThr ntA ncA i rest used
    else if fuzzy_match fp.ratio ntA (fp.normTitle b.title) tThr
        && fuzzy_match fp.ratio ncA (fp.normCompany b.company) cThr then
      let r := innerScan fp tThr cThr ntA ncA i rest (jdx :: used)
      (b :: r.1, r.2)
    else innerScan fp tThr cThr ntA ncA i rest used

/-- The outer clustering loop of phase 2 (src/dedup_engine.py lines
137-163). -/
def outerScan (fp : FuzzyParams) (tThr cThr : ℚ) (allC : List (Nat × DJob)) :
    List (Nat × DJob) → List Nat → List (List DJob)
  | [], _ => []
  | (i, a) :: rest, used =>
    if used.contains i then outerScan fp tThr cThr allC rest used
    else
      let r := innerScan fp tThr cThr (fp.normTitle a.title) (fp.normCompany a.company)
        i allC (i :: used)
      (a :: r.1) :: outerScan fp tThr cThr allC rest r.2

/-- `DeduplicationEngine.deduplicate(jobs)` (src/dedup_engine.py lines
104-182) with the engine's thresholds as arguments: exact-URL groups are
merged, the merge results plus URL-less jobs are fuzzy-clustered, and each
final cluster of size 1 is kept with `sources` **overwritten** to
`[board_source]` while larger clusters are merged.  The `self.stats`
bookkeeping and the console print are not modelled. -/
def deduplicate (fp : FuzzyParams) (tThr cThr : ℚ) (jobs : List DJob) : List DJob :=
  match jobs with
  | [] => []
  | j0 :: jrest =>
    let p := phase1 (j0 :: jrest)
    let merged := p.1.map fun g => merge_group g.2
    let all_candidates := merged ++ p.2
    let clusters := outerScan fp tThr cThr all_candidates.enum all_candidates.enum []
    clusters.map fun cluster =>
      match cluster with
      | [j] => { j with sources := [j.board_source] }
      | c => merge_group c

/-- The claim's first posting: populated description, no salary. -/
def dupJob1 : DJob :=
  { title := "Product Manager", company := "ExampleCo", location := "Remote"
    url := "https://example.com/jobs/123", board_source := "indeed"
    description := "Great role building things", salary_range := ""
    posted_date := "", ats_platform := "", job_type := ""
    easy_apply := false, easy_apply_url := "", sources := [], all_urls := [] }

/-- The claim's second posting: same URL, populated salary, no
description. -/
def dupJob2 : DJob :=
  { title := "Product Manager", company := "ExampleCo", location := "Remote"
    url := "https://example.com/jobs/123", board_source := "linkedin"
    description := "", salary_range := "$120k-$150k"
    posted_date := "", ats_platform := "", job_type := ""
    easy_apply := false, easy_apply_url := "", sources := [], all_urls := [] }

/-- The phase-1 merge of the two postings: the salary posting is richer
(20+5 = 25 points vs 26/100+5), so it is the base; the description is
backfilled and `sources` lists both boards. -/
def mergedDup : DJob :=
  { title := "Product Manager", company := "ExampleCo", location := "Remote"
    url := "https://example.com/jobs/123", board_source := "linkedin"
    description := "Great role building things", salary_range := "$120k-$150k"
    posted_date := "", ats_platform := "", job_type := ""
    easy_apply := false, easy_apply_url := ""
    sources := ["linkedin", "indeed"]
    all_urls := ["https://example.com/jobs/123"] }

/-- What `deduplicate` actually returns: the phase-2 singleton-cluster
pass overwrites `sources` with just the base record's board. -/
def finalDup : DJob := { mergedDup with sources := ["linkedin"] }

theorem richness_dupJob1 : richness_score dupJob1 = 26 / 100 + 5 := by
  rw [richness_score,
    if_pos (show dupJob1.description ≠ "" from by decide),
    if_neg (show ¬ dupJob1.salary_range ≠ "" from by decide),
    if_neg (show ¬ dupJob1.posted_date ≠ "" from by decide),
    if_neg (show ¬ dupJob1.easy_apply = true from by decide),
    if_neg (show ¬ dupJob1.ats_platform ≠ "" from by decide),
    if_neg (show ¬ dupJob1.job_type ≠ "" from by decide),
    if_pos (show dupJob1.url ≠ "" from by decide),
    show (min dupJob1.description.length 5000 : ℕ) = 26 from by decide]
  norm_num

theorem richness_dupJob2 : richness_score dupJob2 = 25 := by
  rw [richness_score,
    if_neg (show ¬ dupJob2.description ≠ "" from by decide),
    if_pos (show dupJob2.salary_range ≠ "" from by decide),
    if_neg (show ¬ dupJob2.posted_date ≠ "" from by decide),
    if_neg (show ¬ dupJob2.easy_apply = true from by decide),
    if_neg (show ¬ dupJob2.ats_platform ≠ "" from by decide),
    if_neg (show ¬ dupJob2.job_type ≠ "" from by decide),
    if_pos (show dupJob2.url ≠ "" from by decide)]
  norm_num

theorem sort_dupJobs : sortByRichnessDesc [dupJob1, dupJob2] = [dupJob2, dupJob1] := by
  show insertByRichness dupJob1 (insertByRichness dupJob2 (sortByRichnessDesc [])) = _
  rw [show insertByRichness dupJob2 (sortByRichnessDesc []) = [dupJob2] from rfl]
  show (if richness_score dupJob2 ≤ richness_score dupJob1
    then dupJob1 :: [dupJob2] else dupJob2 :: insertByRichness dupJob1 []) = _
  rw [if_neg (by rw [richness_dupJob1, richness_dupJob2]; norm_num)]
  rfl

theorem merge_dupJobs : merge_group [dupJob1, dupJob2] = mergedDup := by
  show (match sortByRichnessDesc [dupJob1, dupJob2] with
    | [] => default
    | b :: btail =>
      let best := { b with sources := dedupFirst ((b :: btail).map fun j => j.board_source) }
      let best := btail.foldl backfillOne best
      { best with
        all_urls := dedupFirst (((b :: btail).map fun j => j.url).filter fun u => u ≠ "") }) =
    mergedDup
  rw [sort_dupJobs]
  decide

theorem phase1_dupJobs :
    phase1 [dupJob1, dupJob2] = ([("example.com/jobs/123", [dupJob1, dupJob2])], []) := by
  decide

/-- C7 amended: two postings with identical normalized URLs, one with a
description and one with a salary, are merged by `deduplicate` into
exactly one record whose description and salary_range are both non-empty —
but the record's `sources` list is `["linkedin"]` only: the phase-2 pass
treats the phase-1 merge result as a singleton cluster and overwrites the
two-board `sources` list with just the base record's `board_source`.
Holds for every similarity-ratio/normalizer parameterisation, which this
input never consumes. -/
theorem deduplicate_url_merge_amended (fp : FuzzyParams) :
    deduplicate fp (17 / 20) (4 / 5) [dupJob1, dupJob2] = [finalDup]
    ∧ finalDup.description = "Great role building things"
    ∧ finalDup.salary_range = "$120k-$150k"
    ∧ finalDup.sources = ["linkedin"] := by
  refine ⟨?_, by decide, by decide, by decide⟩
  simp only [deduplicate]
  rw [phase1_dupJobs]
  simp only [List.map_cons, List.map_nil]
  rw [merge_dupJobs]
  rfl

/-- C7 counterexample: on the claim's own scenario the merged record's
`sources` does **not** contain both boards — `"indeed"` is lost. -/
theorem deduplicate_sources_counterexample :
    deduplicate ⟨fun _ _ => 0, id, id⟩ (17 / 20) (4 / 5) [dupJob1, dupJob2] = [finalDup]
    ∧ finalDup.description ≠ "" ∧ finalDup.salary_range ≠ ""
    ∧ "indeed" ∉ finalDup.sources := by
  refine ⟨?_, by decide, by decide, by decide⟩
  simp only [deduplicate]
  rw [phase1_dupJobs]
  simp only [List.map_cons, List.map_nil]
  rw [merge_dupJobs]
  rfl

end Dedup

end JobPilot
